import Mathlib

/-!
Verification of the YOLO-to-LabelMe converter (`src/yolotolabelme.py`).

The converter reads per-image YOLO annotation text files, splits each line on
whitespace, parses the tokens as floating point values, and emits LabelMe
shapes: five-token lines become rectangles whose corners are de-normalized
against the image width/height and truncated toward zero by `int(...)`;
lines with more than five tokens become polygons whose coordinates are parsed
and truncated with no de-normalization; shorter lines are skipped.

Modelling conventions: Python floats are embedded as exact rationals (`ℚ`);
`int(x)` on a float is truncation toward zero (`truncQ`); `str.split()` is
`splitWS`; `float(tok)` is `parseFloat` covering the plain decimal literals
(optional sign, digits, optional fraction, optional exponent); the class
mapping built by `load_class_mapping` (a dict keyed by 0-based line index)
is a list of stripped names indexed by position.
-/

/-- Python `str.split()` helper: accumulate the current token (reversed)
and cut at every whitespace character, discarding empty pieces. -/
def splitWSAux : List Char → List Char → List String
  | [], acc => if acc = [] then [] else [⟨acc.reverse⟩]
  | c :: cs, acc =>
    if c.isWhitespace then
      if acc = [] then splitWSAux cs [] else ⟨acc.reverse⟩ :: splitWSAux cs []
    else
      splitWSAux cs (c :: acc)

/-- Python `line.strip().split()`: split on runs of whitespace, no empty
tokens (embeds line 40 of the source). -/
def splitWS (s : String) : List String := splitWSAux s.data []

/-- Read a maximal run of decimal digits, returning the accumulated value,
the number of digits read, and the rest of the input. -/
def takeDigitsAux (acc : ℕ) (n : ℕ) : List Char → ℕ × ℕ × List Char
  | [] => (acc, n, [])
  | c :: cs =>
    if c.isDigit then takeDigitsAux (acc * 10 + (c.toNat - 48)) (n + 1) cs
    else (acc, n, c :: cs)

/-- Core of `parseFloat` on the character list of a token. -/
def parseFloatCore (cs : List Char) : Option ℚ :=
  let sc : ℚ × List Char :=
    match cs with
    | '+' :: r => (1, r)
    | '-' :: r => (-1, r)
    | _ => (1, cs)
  let ip := takeDigitsAux 0 0 sc.2
  let fp : ℕ × ℕ × List Char :=
    match ip.2.2 with
    | '.' :: r => takeDigitsAux 0 0 r
    | _ => (0, 0, ip.2.2)
  if ip.2.1 + fp.2.1 = 0 then none
  else
    let mant : ℚ := sc.1 * ((ip.1 : ℚ) + (fp.1 : ℚ) / 10 ^ fp.2.1)
    match fp.2.2 with
    | [] => some mant
    | e :: r =>
      if e = 'e' ∨ e = 'E' then
        let se : Bool × List Char :=
          match r with
          | '+' :: rr => (false, rr)
          | '-' :: rr => (true, rr)
          | _ => (false, r)
        let ex := takeDigitsAux 0 0 se.2
        if ex.2.1 = 0 ∨ ex.2.2 ≠ [] then none
        else if se.1 then some (mant / 10 ^ ex.1) else some (mant * 10 ^ ex.1)
      else none

/-- Python `float(tok)` on a whitespace-free token, embedded over exact
rationals; handles the plain decimal-literal forms used by YOLO files. -/
def parseFloat (s : String) : Option ℚ := parseFloatCore s.data

/-- Python `int(x)` on a float: truncation toward zero. -/
def truncQ (q : ℚ) : ℤ := if 0 ≤ q then ⌊q⌋ else ⌈q⌉

/-- Embeds `load_class_mapping` (source lines 7-14): the dict maps the 0-based line
index to the stripped line, so the mapping is the list of stripped lines. -/
def load_class_mapping (lines : List String) : List String :=
  lines.map (fun l => l.trim)

/-- Embeds `class_id in class_mapping` / `class_mapping[class_id]` with the fallback
label (source lines 56-59): the float key matches exactly when it equals an
integer index registered in the mapping, i.e. it has denominator 1 and its
numerator is a valid 0-based index. -/
def classLabel (cm : List String) (cid : ℚ) : String :=
  if cid.den = 1 ∧ 0 ≤ cid.num ∧ cid.num < cm.length then
    cm.getD cid.num.toNat "unknown"
  else "unknown"

/-- Python `map(float, parts)` / `[float(x) for x in parts]`: parse every
token, raising (here `none`) at the first token `float()` rejects. -/
def parseAll : List String → Option (List ℚ)
  | [] => some []
  | t :: ts =>
    match parseFloat t, parseAll ts with
    | some v, some vs => some (v :: vs)
    | _, _ => none

/-- One LabelMe shape dict as built at source lines 62-76. -/
structure Shape where
  label : String
  points : List (List ℤ)
  group_id : Option ℤ
  shape_type : String
  flags : List (String × Bool)
deriving DecidableEq, Repr

/-- Outcome of processing one annotation line: an unhandled parse exception,
a silent skip (`continue`), or an appended shape. -/
inductive LineResult where
  | error : LineResult
  | skipped : LineResult
  | emitted : Shape → LineResult
deriving DecidableEq, Repr

/-- Per-line body of `convert_yolo_to_labelme` (source lines 39-76), for an
image of pixel size `W × H`: exactly 5 tokens give a rectangle with corners
de-normalized and truncated; more than 5 tokens give a polygon whose
coordinates are parsed and truncated with no de-normalization and stored as
one flat list; fewer than 5 tokens are skipped; a token that fails `float()`
raises, modelled as `.error`. -/
def processLine (cm : List String) (W H : ℕ) (line : String) : LineResult :=
  match splitWS line with
  | [t0, t1, t2, t3, t4] =>
    match parseAll [t0, t1, t2, t3, t4] with
    | some [cid, xc, yc, w, h] =>
      .emitted
        { label := classLabel cm cid
          points :=
            [[truncQ (xc * W - w * W / 2), truncQ (yc * H - h * H / 2)],
             [truncQ (xc * W + w * W / 2), truncQ (yc * H + h * H / 2)]]
          group_id := none
          shape_type := "rectangle"
          flags := [] }
    | _ => .error
  | parts =>
    if parts.length > 5 then
      match parseFloat (parts.headD ""), parseAll parts.tail with
      | some cid, some vals =>
        .emitted
          { label := classLabel cm cid
            points := [vals.map truncQ]
            group_id := none
            shape_type := "polygon"
            flags := [] }
      | _, _ => .error
    else .skipped

/-- The per-file loop over annotation lines (source lines 39-76): an
unhandled exception aborts the file (`none`), a skipped line contributes
nothing, an emitted shape is appended in order. -/
def convertLines (cm : List String) (W H : ℕ) : List String → Option (List Shape)
  | [] => some []
  | l :: ls =>
    match processLine cm W H l with
    | .error => none
    | .skipped => convertLines cm W H ls
    | .emitted s => (convertLines cm W H ls).map (fun rest => s :: rest)

/-- Whether the first character of `s` is `c`. -/
def headIs (c : Char) (s : String) : Bool :=
  match s.data with
  | d :: _ => d = c
  | [] => false

/-- Whether the last character of `s` is `c`. -/
def lastIs (c : Char) (s : String) : Bool :=
  match s.data.getLast? with
  | some d => d = c
  | none => false

/-- POSIX `os.path.join` on two components: an absolute second component
replaces the first; otherwise a separator is inserted unless the first part
is empty or already ends with one. -/
def joinPath (a b : String) : String :=
  if headIs '/' b then b
  else if a.data = [] ∨ lastIs '/' a then a ++ b
  else a ++ "/" ++ b

/-- Python `name.replace(".txt", ext)` on the character list: every
non-overlapping occurrence of `.txt` is replaced, scanning left to right. -/
def replaceTxtChars (ext : List Char) : List Char → List Char
  | '.' :: 't' :: 'x' :: 't' :: rest => ext ++ replaceTxtChars ext rest
  | c :: rest => c :: replaceTxtChars ext rest
  | [] => []

/-- Python `name.replace(".txt", ext)` (source line 36). -/
def replaceTxt (ext s : String) : String := ⟨replaceTxtChars ext.data s.data⟩

/-- Extension normalization at source lines 24-25: prepend a dot when the
configured extension lacks one. -/
def normExt (ext : String) : String :=
  if headIs '.' ext then ext else "." ++ ext

/-- The `labelme_data` dict built at source lines 79-87. -/
structure LabelMeData where
  version : String
  flags : List (String × Bool)
  shapes : List Shape
  imagePath : String
  imageData : Option String
  imageHeight : ℕ
  imageWidth : ℕ
deriving DecidableEq, Repr

/-- The shape contributed by one line, if any: `.error` and `.skipped`
contribute nothing. -/
def emittedShape (cm : List String) (W H : ℕ) (line : String) : Option Shape :=
  match processLine cm W H line with
  | .emitted s => some s
  | _ => none

/-- Conversion of one annotation file named `fileName` with raw lines
`lines`, against an image whose probed size is `W × H`: the image path is
`os.path.join("..", prefix_dir, fileName.replace(".txt", img_ext))` with the
extension dot-normalized (source lines 24-25 and 36), and the document
carries the shapes in line order (source lines 33-87). `none` models an
unhandled per-line parse exception aborting the run before the file is
written. -/
def convertFile (cm : List String) (ver prefixDir ext fileName : String)
    (W H : ℕ) (lines : List String) : Option LabelMeData :=
  let ip := joinPath (joinPath ".." prefixDir) (replaceTxt (normExt ext) fileName)
  (convertLines cm W H lines).map fun shapes =>
    { version := ver
      flags := []
      shapes := shapes
      imagePath := ip
      imageData := none
      imageHeight := H
      imageWidth := W }

theorem truncQ_mono {a b : ℚ} (hab : a ≤ b) : truncQ a ≤ truncQ b := by
  unfold truncQ
  by_cases ha : 0 ≤ a
  · rw [if_pos ha, if_pos (le_trans ha hab)]
    exact Int.floor_le_floor hab
  · by_cases hb : 0 ≤ b
    · rw [if_neg ha, if_pos hb]
      have h1 : ⌈a⌉ ≤ (0 : ℤ) := Int.ceil_le.mpr (by exact_mod_cast le_of_lt (lt_of_not_le ha))
      have h2 : (0 : ℤ) ≤ ⌊b⌋ := Int.floor_nonneg.mpr hb
      exact le_trans h1 h2
    · rw [if_neg ha, if_neg hb]
      exact Int.ceil_le_ceil hab

theorem parseAll_cons {t : String} {ts : List String} {vals : List ℚ}
    (hv : parseAll (t :: ts) = some vals) :
    ∃ v vs, parseFloat t = some v ∧ parseAll ts = some vs ∧ vals = v :: vs := by
  unfold parseAll at hv
  cases hpt : parseFloat t with
  | none => rw [hpt] at hv; simp at hv
  | some v =>
    cases hpts : parseAll ts with
    | none => rw [hpt, hpts] at hv; simp at hv
    | some vs =>
      rw [hpt, hpts] at hv
      simp at hv
      exact ⟨v, vs, rfl, rfl, hv.symm⟩

theorem parseAll_mem_none {t : String} {ts : List String}
    (ht : t ∈ ts) (hn : parseFloat t = none) : parseAll ts = none := by
  induction ts with
  | nil => cases ht
  | cons a as ih =>
    unfold parseAll
    rcases List.mem_cons.mp ht with rfl | hmem
    · rw [hn]
    · rw [ih hmem]
      cases parseFloat a <;> rfl

theorem processLine_rect (cm : List String) (W H : ℕ) (line t0 t1 t2 t3 t4 : String)
    (cid xc yc w h : ℚ)
    (hs : splitWS line = [t0, t1, t2, t3, t4])
    (h0 : parseFloat t0 = some cid) (h1 : parseFloat t1 = some xc)
    (h2 : parseFloat t2 = some yc) (h3 : parseFloat t3 = some w)
    (h4 : parseFloat t4 = some h) :
    processLine cm W H line =
      .emitted { label := classLabel cm cid
                 points := [[truncQ (xc * W - w * W / 2), truncQ (yc * H - h * H / 2)],
                            [truncQ (xc * W + w * W / 2), truncQ (yc * H + h * H / 2)]]
                 group_id := none
                 shape_type := "rectangle"
                 flags := [] } := by
  unfold processLine
  rw [hs]
  simp [parseAll, h0, h1, h2, h3, h4]

theorem processLine_poly (cm : List String) (W H : ℕ) (line p0 p1 p2 p3 p4 p5 : String)
    (rest : List String) (cid : ℚ) (vals : List ℚ)
    (hs : splitWS line = p0 :: p1 :: p2 :: p3 :: p4 :: p5 :: rest)
    (hc : parseFloat p0 = some cid)
    (hv : parseAll (p1 :: p2 :: p3 :: p4 :: p5 :: rest) = some vals) :
    processLine cm W H line =
      .emitted { label := classLabel cm cid
                 points := [vals.map truncQ]
                 group_id := none
                 shape_type := "polygon"
                 flags := [] } := by
  unfold processLine
  rw [hs]
  simp [hc, hv]

theorem classLabel_of_index (cm : List String) (i : ℕ) (hi : i < cm.length) :
    classLabel cm (i : ℚ) = cm.get ⟨i, hi⟩ := by
  unfold classLabel
  have hd : ((i : ℚ)).den = 1 := by
    rw [← Rat.den_intCast (i : ℤ)]
    norm_cast
  have hn : ((i : ℚ)).num = (i : ℤ) := by
    rw [← Rat.num_intCast (i : ℤ)]
    norm_cast
  rw [if_pos]
  · rw [hn]
    simp [List.getD_eq_getElem?_getD, List.getElem?_eq_getElem hi]
  · refine ⟨hd, ?_, ?_⟩
    · rw [hn]; exact Int.ofNat_nonneg i
    · rw [hn]; exact_mod_cast hi

theorem classLabel_unknown (cm : List String) (cid : ℚ)
    (hall : ∀ i : ℕ, i < cm.length → (i : ℚ) ≠ cid) : classLabel cm cid = "unknown" := by
  unfold classLabel
  rw [if_neg]
  rintro ⟨hden, hpos, hlt⟩
  have hc : ((cid.num : ℚ)) = cid := (Rat.den_eq_one_iff cid).mp hden
  have hnat : ((cid.num.toNat : ℕ) : ℚ) = cid := by
    rw [← hc]
    exact_mod_cast congrArg (fun z => ((z : ℤ) : ℚ)) (Int.toNat_of_nonneg hpos)
  have hlen : cid.num.toNat < cm.length := by omega
  exact hall cid.num.toNat hlen hnat

theorem processLine_short (cm : List String) (W H : ℕ) (line : String)
    (hlen : (splitWS line).length < 5) : processLine cm W H line = .skipped := by
  unfold processLine
  rcases hs : splitWS line with _ | ⟨a, _ | ⟨b, _ | ⟨c, _ | ⟨d, _ | ⟨e, rest⟩⟩⟩⟩⟩
  · rfl
  · rfl
  · rfl
  · rfl
  · rfl
  · rw [hs] at hlen
    simp only [List.length_cons] at hlen
    omega

theorem convertLines_cons_skipped (cm : List String) (W H : ℕ) (l : String) (ls : List String)
    (h : processLine cm W H l = .skipped) :
    convertLines cm W H (l :: ls) = convertLines cm W H ls := by
  simp only [convertLines]
  rw [h]

theorem convertLines_append_error (cm : List String) (W H : ℕ) (l : String)
    (h : processLine cm W H l = .error) :
    ∀ pre post : List String, convertLines cm W H (pre ++ l :: post) = none := by
  intro pre post
  induction pre with
  | nil =>
    rw [List.nil_append]
    simp only [convertLines]
    rw [h]
  | cons p ps ih =>
    rw [List.cons_append]
    simp only [convertLines]
    cases hp : processLine cm W H p
    · rfl
    · exact ih
    · rw [ih]; rfl

theorem convertLines_eq_filterMap (cm : List String) (W H : ℕ) :
    ∀ (lines : List String) (shapes : List Shape),
      convertLines cm W H lines = some shapes →
      shapes = lines.filterMap (emittedShape cm W H) := by
  intro lines
  induction lines with
  | nil =>
    intro shapes hsh
    simp only [convertLines] at hsh
    simp at hsh
    simp [hsh]
  | cons l ls ih =>
    intro shapes hsh
    simp only [convertLines] at hsh
    cases hp : processLine cm W H l with
    | error => rw [hp] at hsh; simp at hsh
    | skipped =>
      rw [hp] at hsh
      rw [List.filterMap_cons]
      have he : emittedShape cm W H l = none := by unfold emittedShape; rw [hp]
      rw [he]
      exact ih shapes hsh
    | emitted s =>
      rw [hp] at hsh
      cases hr : convertLines cm W H ls with
      | none => rw [hr] at hsh; simp at hsh
      | some rest =>
        rw [hr] at hsh
        simp at hsh
        have he : emittedShape cm W H l = some s := by unfold emittedShape; rw [hp]
        rw [List.filterMap_cons, he, ← hsh, ih rest hr]

theorem emitted_label (cm : List String) (W H : ℕ) (line : String) (s : Shape)
    (h : processLine cm W H line = .emitted s) :
    ∃ cid, parseFloat ((splitWS line).headD "") = some cid ∧ s.label = classLabel cm cid := by
  unfold processLine at h
  split at h
  next t0 t1 t2 t3 t4 heq =>
    split at h
    next cid xc yc w hq heq2 =>
      obtain ⟨v, vs, hv0, hrest, hinj⟩ := parseAll_cons heq2
      refine ⟨cid, ?_, ?_⟩
      · rw [heq]
        simp only [List.headD_cons]
        rw [hv0]
        cases hinj
        rfl
      · cases h
        rfl
    next => cases h
  next parts heq =>
    split at h
    · split at h
      next cid vals hc hv =>
        refine ⟨cid, ?_, ?_⟩
        · exact hc
        · cases h
          rfl
      next => cases h
    · cases h

/-- C8 amended: the imagePath of a produced document is the join of "..",
the configured prefix directory, and the annotation file name with every
occurrence of ".txt" (not only the trailing one) replaced by the
dot-normalized image extension. -/
theorem image_path_formula (cm : List String) (ver prefixDir ext fileName : String)
    (W H : ℕ) (lines : List String) (doc : LabelMeData)
    (h : convertFile cm ver prefixDir ext fileName W H lines = some doc) :
    doc.imagePath = joinPath (joinPath ".." prefixDir) (replaceTxt (normExt ext) fileName) := by
  unfold convertFile at h
  cases hcv : convertLines cm W H lines with
  | none => rw [hcv] at h; simp at h
  | some shapes =>
    rw [hcv] at h
    simp only [Option.map_some', Option.some.injEq] at h
    rw [← h]

/-- C1: a 5-token line against a W×H image yields a rectangle with corners
x1 = trunc(xc*W - w*W/2), y1 = trunc(yc*H - h*H/2), x2 = trunc(xc*W + w*W/2),
y2 = trunc(yc*H + h*H/2), truncation toward zero. -/
theorem rect_corner_formula (cm : List String) (W H : ℕ) (line t0 t1 t2 t3 t4 : String)
    (cid xc yc w h : ℚ)
    (hs : splitWS line = [t0, t1, t2, t3, t4])
    (h0 : parseFloat t0 = some cid) (h1 : parseFloat t1 = some xc)
    (h2 : parseFloat t2 = some yc) (h3 : parseFloat t3 = some w)
    (h4 : parseFloat t4 = some h) :
    ∃ s, processLine cm W H line = .emitted s ∧ s.shape_type = "rectangle" ∧
      s.points = [[truncQ (xc * W - w * W / 2), truncQ (yc * H - h * H / 2)],
                  [truncQ (xc * W + w * W / 2), truncQ (yc * H + h * H / 2)]] :=
  ⟨_, processLine_rect cm W H line t0 t1 t2 t3 t4 cid xc yc w h hs h0 h1 h2 h3 h4, rfl, rfl⟩

set_option maxRecDepth 8000 in
/-- C1 witness: the line '0 0.5 0.5 0.2 0.4' against a 1000×1000 image gives
corners (400, 300) and (600, 700). -/
theorem rect_corner_formula_witness :
    ∃ s, processLine ["cat", "dog", "bird"] 1000 1000 "0 0.5 0.5 0.2 0.4" = .emitted s ∧
      s.shape_type = "rectangle" ∧ s.points = [[400, 300], [600, 700]] := by
  obtain ⟨s, hps, hty, hpts⟩ :=
    rect_corner_formula ["cat", "dog", "bird"] 1000 1000 "0 0.5 0.5 0.2 0.4"
      "0" "0.5" "0.5" "0.2" "0.4" 0 (1/2) (1/2) (1/5) (2/5)
      (by decide) (by with_unfolding_all decide) (by with_unfolding_all decide)
      (by with_unfolding_all decide) (by with_unfolding_all decide)
      (by with_unfolding_all decide)
  refine ⟨s, hps, hty, ?_⟩
  rw [hpts]
  with_unfolding_all decide

/-- C5: a line with fewer than 5 whitespace-separated tokens is skipped:
no shape, no error, and the rest of the file is processed unchanged. -/
theorem short_line_skipped (cm : List String) (W H : ℕ) (line : String)
    (hlen : (splitWS line).length < 5) :
    processLine cm W H line = .skipped ∧
      ∀ rest : List String, convertLines cm W H (line :: rest) = convertLines cm W H rest := by
  have hp := processLine_short cm W H line hlen
  exact ⟨hp, fun rest => convertLines_cons_skipped cm W H line rest hp⟩

/-- C5 witness: a 3-token line and the empty line are both skipped. -/
theorem short_line_skipped_witness :
    (processLine ["cat"] 10 10 "1 2 3" = .skipped ∧
      convertLines ["cat"] 10 10 ["1 2 3"] = convertLines ["cat"] 10 10 []) ∧
    processLine ["cat"] 10 10 "" = .skipped := by
  have h3 := short_line_skipped ["cat"] 10 10 "1 2 3" (by decide)
  have h0 := short_line_skipped ["cat"] 10 10 "" (by decide)
  exact ⟨⟨h3.1, h3.2 []⟩, h0.1⟩

/-- C6: for a 5-token line whose width and height values are non-negative,
the emitted corners satisfy x1 ≤ x2 and y1 ≤ y2, because truncation toward
zero is monotone and the un-truncated coordinates are ordered. -/
theorem rect_corner_order (cm : List String) (W H : ℕ) (line t0 t1 t2 t3 t4 : String)
    (cid xc yc w h : ℚ)
    (hs : splitWS line = [t0, t1, t2, t3, t4])
    (h0 : parseFloat t0 = some cid) (h1 : parseFloat t1 = some xc)
    (h2 : parseFloat t2 = some yc) (h3 : parseFloat t3 = some w)
    (h4 : parseFloat t4 = some h) (hw : 0 ≤ w) (hh : 0 ≤ h) :
    ∃ x1 y1 x2 y2, processLine cm W H line =
        .emitted { label := classLabel cm cid, points := [[x1, y1], [x2, y2]],
                   group_id := none, shape_type := "rectangle", flags := [] } ∧
      x1 ≤ x2 ∧ y1 ≤ y2 := by
  refine ⟨_, _, _, _, processLine_rect cm W H line t0 t1 t2 t3 t4 cid xc yc w h hs h0 h1 h2 h3 h4, ?_, ?_⟩
  · apply truncQ_mono
    have hnn : (0 : ℚ) ≤ w * W / 2 :=
      div_nonneg (mul_nonneg hw (Nat.cast_nonneg W)) (by norm_num)
    linarith
  · apply truncQ_mono
    have hnn : (0 : ℚ) ≤ h * H / 2 :=
      div_nonneg (mul_nonneg hh (Nat.cast_nonneg H)) (by norm_num)
    linarith

set_option maxRecDepth 8000 in
/-- C6 witness: the line '0 0.1 0.9 0.3 0.5' against a 100×40 image. -/
theorem rect_corner_order_witness :
    ∃ x1 y1 x2 y2, processLine ["cat"] 100 40 "0 0.1 0.9 0.3 0.5" =
        .emitted { label := classLabel ["cat"] 0, points := [[x1, y1], [x2, y2]],
                   group_id := none, shape_type := "rectangle", flags := [] } ∧
      x1 ≤ x2 ∧ y1 ≤ y2 :=
  rect_corner_order ["cat"] 100 40 "0 0.1 0.9 0.3 0.5" "0" "0.1" "0.9" "0.3" "0.5"
    0 (1/10) (9/10) (3/10) (1/2)
    (by decide) (by with_unfolding_all decide) (by with_unfolding_all decide)
    (by with_unfolding_all decide) (by with_unfolding_all decide)
    (by with_unfolding_all decide) (by norm_num) (by norm_num)

/-- C2: a line with more than 5 tokens emits a polygon whose coordinate
values are the remaining tokens parsed as floats and truncated to integers,
with no multiplication by the image width or height: the result is the same
for any two image geometries. -/
theorem polygon_no_denormalize (cm : List String) (W H W2 H2 : ℕ)
    (line p0 p1 p2 p3 p4 p5 : String) (rest : List String) (cid : ℚ) (vals : List ℚ)
    (hs : splitWS line = p0 :: p1 :: p2 :: p3 :: p4 :: p5 :: rest)
    (hc : parseFloat p0 = some cid)
    (hv : parseAll (p1 :: p2 :: p3 :: p4 :: p5 :: rest) = some vals) :
    processLine cm W H line = processLine cm W2 H2 line ∧
      ∃ s, processLine cm W H line = .emitted s ∧ s.shape_type = "polygon" ∧
        s.points = [vals.map truncQ] := by
  have e1 := processLine_poly cm W H line p0 p1 p2 p3 p4 p5 rest cid vals hs hc hv
  have e2 := processLine_poly cm W2 H2 line p0 p1 p2 p3 p4 p5 rest cid vals hs hc hv
  exact ⟨e1.trans e2.symm, _, e1, rfl, rfl⟩

/-- C2 witness: '0 10 20 30 40 50 60' gives coordinates 10..60 unscaled,
whether the image is 7×9 or 1000×500. -/
theorem polygon_no_denormalize_witness :
    processLine ["cat"] 7 9 "0 10 20 30 40 50 60" =
        processLine ["cat"] 1000 500 "0 10 20 30 40 50 60" ∧
      ∃ s, processLine ["cat"] 7 9 "0 10 20 30 40 50 60" = .emitted s ∧
        s.shape_type = "polygon" ∧ s.points = [[10, 20, 30, 40, 50, 60]] := by
  obtain ⟨heq, s, hes, hty, hpts⟩ :=
    polygon_no_denormalize ["cat"] 7 9 1000 500 "0 10 20 30 40 50 60"
      "0" "10" "20" "30" "40" "50" ["60"] 0 [10, 20, 30, 40, 50, 60]
      (by decide) (by with_unfolding_all decide) (by with_unfolding_all decide)
  refine ⟨heq, s, hes, hty, ?_⟩
  rw [hpts]
  with_unfolding_all decide

/-- C3 counterexample: the polygon points field is not a list of [x,y]
vertex pairs; for '0 10 20 30 40 50 60' it is the single flat list
[[10, 20, 30, 40, 50, 60]], not [[10, 20], [30, 40], [50, 60]]. -/
theorem polygon_points_pairs_cex :
    processLine ["cat"] 7 9 "0 10 20 30 40 50 60" =
        .emitted { label := "cat", points := [[10, 20, 30, 40, 50, 60]],
                   group_id := none, shape_type := "polygon", flags := [] } ∧
      ([[10, 20, 30, 40, 50, 60]] : List (List ℤ)) ≠ [[10, 20], [30, 40], [50, 60]] :=
  ⟨by with_unfolding_all decide, by decide⟩

/-- C3 amended: the polygon shape's points field is a one-element list whose
single element is the flat list of all coordinate tokens parsed and
truncated, in original order — not a list of [x,y] pairs. -/
theorem polygon_points_flat (cm : List String) (W H : ℕ)
    (line p0 p1 p2 p3 p4 p5 : String) (rest : List String) (cid : ℚ) (vals : List ℚ)
    (hs : splitWS line = p0 :: p1 :: p2 :: p3 :: p4 :: p5 :: rest)
    (hc : parseFloat p0 = some cid)
    (hv : parseAll (p1 :: p2 :: p3 :: p4 :: p5 :: rest) = some vals) :
    ∃ s, processLine cm W H line = .emitted s ∧
      s.points = [vals.map truncQ] ∧ s.points.length = 1 ∧
      (vals.map truncQ).length = vals.length :=
  ⟨_, processLine_poly cm W H line p0 p1 p2 p3 p4 p5 rest cid vals hs hc hv,
    rfl, rfl, List.length_map vals truncQ⟩

/-- C3 amended witness: '1 2 3 4 5 6 7' yields points [[2, 3, 4, 5, 6, 7]]. -/
theorem polygon_points_flat_witness :
    ∃ s, processLine ["cat", "dog"] 7 9 "1 2 3 4 5 6 7" = .emitted s ∧
      s.points = [[2, 3, 4, 5, 6, 7].map truncQ] ∧ s.points.length = 1 ∧
      ([2, 3, 4, 5, 6, 7].map truncQ).length = 6 :=
  polygon_points_flat ["cat", "dog"] 7 9 "1 2 3 4 5 6 7" "1" "2" "3" "4" "5" "6" ["7"]
    1 [2, 3, 4, 5, 6, 7] (by decide) (by with_unfolding_all decide)
    (by with_unfolding_all decide)

/-- C4: every emitted shape's label is the class mapping entry at the parsed
class id when that id matches a registered integer index exactly, and the
literal "unknown" when no index matches; either way the line still emits a
shape (processing continues). -/
theorem class_label_lookup (cm : List String) (W H : ℕ) (line : String) (s : Shape)
    (h : processLine cm W H line = .emitted s) :
    ∃ cid, parseFloat ((splitWS line).headD "") = some cid ∧
      s.label = classLabel cm cid ∧
      (∀ i : ℕ, ∀ hi : i < cm.length, (i : ℚ) = cid → s.label = cm.get ⟨i, hi⟩) ∧
      ((∀ i : ℕ, i < cm.length → (i : ℚ) ≠ cid) → s.label = "unknown") := by
  obtain ⟨cid, hp, hl⟩ := emitted_label cm W H line s h
  refine ⟨cid, hp, hl, ?_, ?_⟩
  · intro i hi hic
    rw [hl, ← hic, classLabel_of_index cm i hi]
  · intro hall
    rw [hl, classLabel_unknown cm cid hall]

set_option maxRecDepth 8000 in
/-- C4 witness: with classes ["cat", "dog", "bird"], class id 0 yields label
"cat" and class id 7 yields label "unknown". -/
theorem class_label_lookup_witness :
    (∃ s, processLine ["cat", "dog", "bird"] 1000 1000 "0 0.5 0.5 0.2 0.2" = .emitted s ∧
      s.label = "cat") ∧
    (∃ s, processLine ["cat", "dog", "bird"] 1000 1000 "7 0.5 0.5 0.2 0.2" = .emitted s ∧
      s.label = "unknown") := by
  have h0 : processLine ["cat", "dog", "bird"] 1000 1000 "0 0.5 0.5 0.2 0.2" =
      .emitted { label := "cat", points := [[400, 400], [600, 600]],
                 group_id := none, shape_type := "rectangle", flags := [] } := by
    with_unfolding_all decide
  have h7 : processLine ["cat", "dog", "bird"] 1000 1000 "7 0.5 0.5 0.2 0.2" =
      .emitted { label := "unknown", points := [[400, 400], [600, 600]],
                 group_id := none, shape_type := "rectangle", flags := [] } := by
    with_unfolding_all decide
  obtain ⟨cid0, hp0, hl0, hidx0, hunk0⟩ := class_label_lookup _ _ _ _ _ h0
  obtain ⟨cid7, hp7, hl7, hidx7, hunk7⟩ := class_label_lookup _ _ _ _ _ h7
  have hc0 : cid0 = 0 := by
    have : parseFloat "0" = some 0 := by with_unfolding_all decide
    rw [show (splitWS "0 0.5 0.5 0.2 0.2").headD "" = "0" from by decide] at hp0
    exact Option.some.inj (this.symm.trans hp0) |>.symm
  have hc7 : cid7 = 7 := by
    have : parseFloat "7" = some 7 := by with_unfolding_all decide
    rw [show (splitWS "7 0.5 0.5 0.2 0.2").headD "" = "7" from by decide] at hp7
    exact Option.some.inj (this.symm.trans hp7) |>.symm
  constructor
  · refine ⟨_, h0, ?_⟩
    have := hidx0 0 (by decide) (by rw [hc0]; norm_num)
    exact this
  · refine ⟨_, h7, ?_⟩
    apply hunk7
    intro i hi hbad
    rw [hc7] at hbad
    have hi3 : i < 3 := by simpa using hi
    have hieq : i = 7 := by exact_mod_cast hbad
    omega

/-- C7: the shapes of a successfully converted file are exactly the shapes
of its non-skipped lines, in source order (no reordering or sorting). -/
theorem shape_order_preserved (cm : List String) (W H : ℕ)
    (lines : List String) (shapes : List Shape)
    (h : convertLines cm W H lines = some shapes) :
    shapes = lines.filterMap (emittedShape cm W H) :=
  convertLines_eq_filterMap cm W H lines shapes h

/-- C7 witness: a rectangle line, a skipped short line, and a polygon line
produce exactly the two shapes, in that order. -/
theorem shape_order_preserved_witness :
    convertLines ["cat", "dog"] 10 10 ["0 0.5 0.5 0.2 0.2", "x", "1 2 3 4 5 6"] =
        some [{ label := "cat", points := [[4, 4], [6, 6]], group_id := none,
                shape_type := "rectangle", flags := [] },
              { label := "dog", points := [[2, 3, 4, 5, 6]], group_id := none,
                shape_type := "polygon", flags := [] }] ∧
      [({ label := "cat", points := [[4, 4], [6, 6]], group_id := none,
          shape_type := "rectangle", flags := [] } : Shape),
       { label := "dog", points := [[2, 3, 4, 5, 6]], group_id := none,
         shape_type := "polygon", flags := [] }] =
        (["0 0.5 0.5 0.2 0.2", "x", "1 2 3 4 5 6"]).filterMap
          (emittedShape ["cat", "dog"] 10 10) := by
  have h : convertLines ["cat", "dog"] 10 10 ["0 0.5 0.5 0.2 0.2", "x", "1 2 3 4 5 6"] =
      some [{ label := "cat", points := [[4, 4], [6, 6]], group_id := none,
              shape_type := "rectangle", flags := [] },
            { label := "dog", points := [[2, 3, 4, 5, 6]], group_id := none,
              shape_type := "polygon", flags := [] }] := by
    with_unfolding_all decide
  exact ⟨h, shape_order_preserved ["cat", "dog"] 10 10 _ _ h⟩

/-- C8 counterexample: for the file name 'a.txt.txt' every occurrence of
'.txt' is replaced, giving imagePath '../a.jpg.jpg', not the trailing-only
replacement '../a.txt.jpg'. -/
theorem image_path_trailing_cex :
    ∃ doc, convertFile [] "5.4.1" "" ".jpg" "a.txt.txt" 3 4 [] = some doc ∧
      doc.imagePath = "../a.jpg.jpg" ∧ doc.imagePath ≠ "../a.txt.jpg" := by
  refine ⟨{ version := "5.4.1", flags := [], shapes := [], imagePath := "../a.jpg.jpg",
            imageData := none, imageHeight := 4, imageWidth := 3 }, ?_, rfl, ?_⟩
  · decide
  · decide

/-- C8 witness: prefix 'imgs' and extension 'png' (without a dot) for file
'a.txt' give imagePath '../imgs/a.png'. -/
theorem image_path_formula_witness :
    ∃ doc, convertFile [] "5.4.1" "imgs" "png" "a.txt" 3 4 [] = some doc ∧
      doc.imagePath = joinPath (joinPath ".." "imgs") (replaceTxt (normExt "png") "a.txt") ∧
      doc.imagePath = "../imgs/a.png" := by
  have h : convertFile [] "5.4.1" "imgs" "png" "a.txt" 3 4 [] =
      some { version := "5.4.1", flags := [], shapes := [], imagePath := "../imgs/a.png",
             imageData := none, imageHeight := 4, imageWidth := 3 } := by decide
  exact ⟨_, h, image_path_formula [] "5.4.1" "imgs" "png" "a.txt" 3 4 [] _ h, rfl⟩

/-- C10: a line with at least 5 tokens containing a token that does not
parse as a float raises an unhandled error, which aborts the whole
conversion wherever the line occurs in the file; such lines are not
skipped. -/
theorem bad_token_errors (cm : List String) (W H : ℕ) (line t : String)
    (hlen : 5 ≤ (splitWS line).length) (ht : t ∈ splitWS line)
    (hn : parseFloat t = none) :
    processLine cm W H line = .error ∧
      ∀ pre post : List String, convertLines cm W H (pre ++ line :: post) = none := by
  have herr : processLine cm W H line = .error := by
    unfold processLine
    rcases hsp : splitWS line with _ | ⟨a, _ | ⟨b, _ | ⟨c, _ | ⟨d, _ | ⟨e, rest⟩⟩⟩⟩⟩
    · rw [hsp] at hlen; simp at hlen
    · rw [hsp] at hlen; simp at hlen
    · rw [hsp] at hlen; simp at hlen
    · rw [hsp] at hlen; simp at hlen
    · rw [hsp] at hlen; simp at hlen
    · rw [hsp] at ht
      cases rest with
      | nil =>
        have hall : parseAll [a, b, c, d, e] = none := parseAll_mem_none ht hn
        simp [hall]
      | cons f rest2 =>
        have hgt : (a :: b :: c :: d :: e :: f :: rest2).length > 5 := by
          simp only [List.length_cons]
          omega
        rcases List.mem_cons.mp ht with rfl | htl
        · simp [hgt, hn]
        · have hall : parseAll (b :: c :: d :: e :: f :: rest2) = none :=
            parseAll_mem_none htl hn
          simp only [hgt, if_true, gt_iff_lt, List.headD_cons, List.tail_cons, hall]
          cases parseFloat a <;> rfl
  exact ⟨herr, fun pre post => convertLines_append_error cm W H line herr pre post⟩

/-- C10 witness: the token 'abc' in a 5-token line aborts the file. -/
theorem bad_token_errors_witness :
    processLine ["cat"] 7 9 "0 abc 0.5 0.2 0.4" = .error ∧
      convertLines ["cat"] 7 9 ["1 2 3", "0 abc 0.5 0.2 0.4", "1 2 3 4 5 6"] = none := by
  have h := bad_token_errors ["cat"] 7 9 "0 abc 0.5 0.2 0.4" "abc"
    (by decide) (by decide) (by decide)
  exact ⟨h.1, h.2 ["1 2 3"] ["1 2 3 4 5 6"]⟩

/-- C9 counterexample: '0 1 2 3 4 5' has 6 tokens and an odd number (5) of
coordinate tokens, yet it is converted to a polygon shape. -/
theorem polygon_parity_cex :
    (splitWS "0 1 2 3 4 5").length = 6 ∧ (splitWS "0 1 2 3 4 5").tail.length % 2 = 1 ∧
      processLine ["cat"] 7 9 "0 1 2 3 4 5" =
        .emitted { label := "cat", points := [[1, 2, 3, 4, 5]], group_id := none,
                   shape_type := "polygon", flags := [] } :=
  ⟨by decide, by decide, by with_unfolding_all decide⟩

theorem list_length_eq_five {α : Type} {l : List α} (h : l.length = 5) :
    ∃ a b c d e, l = [a, b, c, d, e] := by
  rcases l with _ | ⟨a, _ | ⟨b, _ | ⟨c, _ | ⟨d, _ | ⟨e, _ | ⟨f, r⟩⟩⟩⟩⟩⟩
  · simp at h
  · simp at h
  · simp at h
  · simp at h
  · simp at h
  · exact ⟨a, b, c, d, e, rfl⟩
  · simp only [List.length_cons] at h
    omega

theorem list_length_gt_five {α : Type} {l : List α} (h : 5 < l.length) :
    ∃ a b c d e f r, l = a :: b :: c :: d :: e :: f :: r := by
  rcases l with _ | ⟨a, _ | ⟨b, _ | ⟨c, _ | ⟨d, _ | ⟨e, _ | ⟨f, r⟩⟩⟩⟩⟩⟩
  · simp at h
  · simp at h
  · simp at h
  · simp at h
  · simp at h
  · simp at h
  · exact ⟨a, b, c, d, e, f, r, rfl⟩

/-- C9 amended: a fully parsable line is converted to a polygon exactly when
it has more than 5 whitespace-separated tokens; the parity of the coordinate
count is never checked. -/
theorem polygon_iff_gt5 (cm : List String) (W H : ℕ) (line : String) (vals : List ℚ)
    (hv : parseAll (splitWS line) = some vals) :
    (∃ s, processLine cm W H line = .emitted s ∧ s.shape_type = "polygon") ↔
      5 < (splitWS line).length := by
  constructor
  · rintro ⟨s, hes, hty⟩
    by_contra hle
    push_neg at hle
    rcases Nat.lt_or_ge (splitWS line).length 5 with hlt | hge
    · rw [processLine_short cm W H line hlt] at hes
      cases hes
    · obtain ⟨a, b, c, d, e, hsp⟩ := list_length_eq_five (le_antisymm hle hge)
      rw [hsp] at hv
      obtain ⟨v0, vs0, hp0, hr0, _⟩ := parseAll_cons hv
      obtain ⟨v1, vs1, hp1, hr1, _⟩ := parseAll_cons hr0
      obtain ⟨v2, vs2, hp2, hr2, _⟩ := parseAll_cons hr1
      obtain ⟨v3, vs3, hp3, hr3, _⟩ := parseAll_cons hr2
      obtain ⟨v4, vs4, hp4, hr4, _⟩ := parseAll_cons hr3
      have hrect := processLine_rect cm W H line a b c d e v0 v1 v2 v3 v4 hsp hp0 hp1 hp2 hp3 hp4
      rw [hrect] at hes
      cases hes
      simp at hty
  · intro hlen
    obtain ⟨a, b, c, d, e, f, r, hsp⟩ := list_length_gt_five hlen
    rw [hsp] at hv
    obtain ⟨v0, vs0, hp0, hr0, _⟩ := parseAll_cons hv
    exact ⟨_, processLine_poly cm W H line a b c d e f r v0 vs0 hsp hp0 hr0, rfl⟩

/-- C9 witness: '0 1 2 3 4 5' parses fully, has more than 5 tokens, and is
emitted as a polygon. -/
theorem polygon_iff_gt5_witness :
    ((∃ s, processLine ["cat"] 7 9 "0 1 2 3 4 5" = .emitted s ∧ s.shape_type = "polygon") ↔
      5 < (splitWS "0 1 2 3 4 5").length) ∧ 5 < (splitWS "0 1 2 3 4 5").length := by
  have h := polygon_iff_gt5 ["cat"] 7 9 "0 1 2 3 4 5" [0, 1, 2, 3, 4, 5]
    (by with_unfolding_all decide)
  exact ⟨h, by decide⟩
